import Mathlib

/-!
Verification of the event reconciliation engine of quay-ci-app.

This file gives a shallow embedding, in Lean, of the core data model and
operations of the repository:

* `YStream` / `TagInformer` embed `taginformer/taginformer.go` (the
  VersionCache): sorted dedup-insertion of patch numbers, the tag-reference
  parser `refs/tags/vX.Y.Z`, lazy fetch with a synced flag, and cache
  invalidation.
* `Status` / `updateBranchSyncStatus` / `sync` embed the StatusStore and the
  SyncEngine of `main.go`.
* `matchCondition` / `runRules` / `runJira` embed the rule engine of
  `checks/jira.go`.
* `recheckMatch` / `handleIssueCommentCreate` embed the `/recheck` comment
  handling of `main.go`.

Go `map`s are embedded as total functions with the zero value as default
(reads of a missing key or of a `nil` map yield the zero value; the explicit
`nil`-map initialisation in the Go code is invisible at the value level).
Go `time.Time` values are embedded as `Nat` (the zero time is `0`).
Machine-integer overflow is not modelled: all tag patch numbers are `Nat`
(the Go code parses them from decimal digit strings).

The two remote collaborators (the GitHub API and the Jira API, §6 of the
spec) are embedded as explicit oracle parameters: a `Remote` structure of
ref-reading/updating functions for the sync engine, and `Except`-valued
fetch results for the tag listing and the Jira issue lookup.
-/

namespace QuayCI

/-! ## VersionCache: `taginformer/taginformer.go` -/

/-- Embeds `YStream` (taginformer.go:17): `patchVersions` is kept sorted and
duplicate-free by `Add`. -/
structure YStream where
  patchVersions : List Nat
deriving DecidableEq

/-- Embeds Go's `sort.Search(n, f)` (called by `sort.SearchInts`): binary
search for the smallest index `i` in `[lo, hi)` with `f i = true`, assuming
`f` monotone; returns `hi` if there is none.  The recursion mirrors the
standard-library loop `for i < j { h := (i+j)/2; if !f(h) { i = h+1 } else { j = h } }`. -/
def goSearch (f : Nat → Bool) (lo hi : Nat) : Nat :=
  if _h : lo < hi then
    if f ((lo + hi) / 2) then goSearch f lo ((lo + hi) / 2)
    else goSearch f ((lo + hi) / 2 + 1) hi
  else lo
termination_by hi - lo
decreasing_by
  all_goals omega

/-- Embeds `sort.SearchInts(a, x)`: smallest index `i` with `x ≤ a[i]`.
The out-of-range default of `getD` is `x` itself so that the predicate stays
monotone beyond the end of the list; the Go closure is never called out of
range, so the default is unobservable. -/
def searchInts (a : List Nat) (x : Nat) : Nat :=
  goSearch (fun k => decide (x ≤ a.getD k x)) 0 a.length

/-- Embeds `YStream.Add` (taginformer.go:22): sorted dedup-insert.  The Go
append/copy/assign sequence inserts `z` at index `i`, which is
`take i ++ z :: drop i`. -/
def YStream.Add (y : YStream) (z : Nat) : YStream :=
  let a := y.patchVersions
  let i := searchInts a z
  if i < a.length && a.getD i 0 == z then y
  else ⟨a.take i ++ z :: a.drop i⟩

/-- Embeds `YStream.Next` (taginformer.go:41).  The receiver is a Go pointer
that may be `nil`, hence the `Option`: `Next` of a `nil` stream or of an
empty stream is `0`, otherwise the last (greatest) element plus one. -/
def YStream.Next (y : Option YStream) : Nat :=
  match y with
  | none => 0
  | some s =>
    match s.patchVersions.getLast? with
    | none => 0
    | some v => v + 1

/-- Specification-side value: `0` for an empty sequence, one plus the
maximum of the sequence otherwise. -/
def nextOfMax (zs : List Nat) : Nat :=
  if zs.isEmpty then 0 else zs.foldr Nat.max 0 + 1

/-- Embeds the digit-string-to-integer conversion of `strconv.Atoi` on a
string of decimal digits (64-bit overflow is not modelled). -/
def natOfDigits (ds : List Char) : Nat :=
  ds.foldl (fun n c => n * 10 + (c.toNat - '0'.toNat)) 0

/-- Strips an expected literal from the front of a character list, `none` if
it does not start with the literal. -/
def stripLit : List Char → List Char → Option (List Char)
  | [], cs => some cs
  | p :: ps, c :: cs => if c = p then stripLit ps cs else none
  | _ :: _, [] => none

/-- Embeds `refVersionRegex = ^refs/tags/v(\d+\.\d+)\.(\d+)$`
(taginformer.go:15) together with the `strconv.Atoi` of the patch group
(taginformer.go:89-95): returns the `major.minor` stream (group 1) and the
patch number (group 2).  The regex is anchored at both ends and every `\d+`
run is followed by a non-digit (`.` or end of string), so each run is forced
to be maximal; the deterministic `takeWhile` parse below is therefore
equivalent to the regex. -/
def parseRef (ref : String) : Option (String × Nat) :=
  match stripLit "refs/tags/v".data ref.data with
  | none => none
  | some rest =>
    let d1 := rest.takeWhile Char.isDigit
    let r1 := rest.dropWhile Char.isDigit
    if d1.isEmpty then none else
    match r1 with
    | '.' :: r2 =>
      let d2 := r2.takeWhile Char.isDigit
      let r3 := r2.dropWhile Char.isDigit
      if d2.isEmpty then none else
      match r3 with
      | '.' :: r4 =>
        let d3 := r4.takeWhile Char.isDigit
        let r5 := r4.dropWhile Char.isDigit
        if d3.isEmpty then none else
        match r5 with
        | [] => some (String.mk (d1 ++ '.' :: d2), natOfDigits d3)
        | _ => none
      | _ => none
    | _ => none

/-- The patch numbers of the refs of `refs` that parse to stream `xy`, in
order of appearance (specification-side helper). -/
def streamPatches (refs : List String) (xy : String) : List Nat :=
  refs.filterMap (fun r =>
    match parseRef r with
    | some (s, z) => if s = xy then some z else none
    | none => none)

/-- Embeds `TagInformer` (taginformer.go:48).  The two Go maps are embedded
as total functions with the zero value (`false` / `nil` pointer) for missing
keys; a `nil` map and an empty map are indistinguishable at the value
level.  The GitHub client is factored out: the one remote call
(`ListMatchingRefs`) is passed as an oracle argument to `NextVersion`. -/
structure TagInformer where
  synced : String → Bool
  tags : String → Option YStream

/-- Embeds `New` (taginformer.go:55): both maps `nil`. -/
def TagInformer.New : TagInformer := ⟨fun _ => false, fun _ => none⟩

/-- Embeds `TagInformer.key` (taginformer.go:61): `"org/repo:xy"`. -/
def TagInformer.key (org repo xy : String) : String :=
  org ++ "/" ++ repo ++ ":" ++ xy

/-- The key of the per-repository synced flag (taginformer.go:68):
`"org/repo"`. -/
def TagInformer.repoKey (org repo : String) : String :=
  org ++ "/" ++ repo

/-- Embeds `TagInformer.hasSynced` (taginformer.go:65). -/
def TagInformer.hasSynced (ti : TagInformer) (org repo : String) : Bool :=
  ti.synced (TagInformer.repoKey org repo)

/-- Embeds `TagInformer.InvalidateCache` (taginformer.go:71): both maps are
reset to `nil`. -/
def TagInformer.InvalidateCache (_ti : TagInformer) : TagInformer :=
  ⟨fun _ => false, fun _ => none⟩

/-- The body of the `addRefs` loop (taginformer.go:86-102): a ref matching
the version regex inserts its patch number into the `YStream` of its
stream key (allocating an empty stream for a missing key, as the Go code
does for a `nil` map entry); a non-matching ref is skipped. -/
def addRefStep (org repo : String) (m : String → Option YStream) (ref : String) :
    String → Option YStream :=
  match parseRef ref with
  | none => m
  | some (xy, z) =>
    fun k' => if k' = TagInformer.key org repo xy
              then some (((m (TagInformer.key org repo xy)).getD ⟨[]⟩).Add z)
              else m k'

/-- Embeds `TagInformer.addRefs` (taginformer.go:78): folds `addRefStep`
over the listed refs and marks the repository synced. -/
def TagInformer.addRefs (ti : TagInformer) (org repo : String) (refs : List String) :
    TagInformer :=
  { synced := fun r => if r = TagInformer.repoKey org repo then true else ti.synced r,
    tags := refs.foldl (addRefStep org repo) ti.tags }

/-- The outcome of one `NextVersion` call: the returned value or error, the
informer state afterwards, and how many tag-listing fetches
(`ListMatchingRefs` calls) were issued. -/
structure NVResult where
  result : Except String String
  state : TagInformer
  fetches : Nat

/-- Embeds `TagInformer.NextVersion` (taginformer.go:125) together with
`init` (taginformer.go:110): if the repository is not synced, one tag
listing is fetched (`fetch` is the oracle outcome of that remote call); a
fetch failure is returned wrapped, leaving the state unchanged; otherwise
the fetched refs are added and the repository marked synced, and the
version string `"<xy>.<next>"` is computed from the stream of `xy`. -/
def TagInformer.NextVersion (ti : TagInformer) (fetch : Except String (List String))
    (org repo xy : String) : NVResult :=
  if ti.hasSynced org repo then
    ⟨.ok (xy ++ "." ++ toString (YStream.Next (ti.tags (TagInformer.key org repo xy)))), ti, 0⟩
  else
    match fetch with
    | .error e => ⟨.error ("failed to list tags: " ++ e), ti, 1⟩
    | .ok refs =>
      let ti' := ti.addRefs org repo refs
      ⟨.ok (xy ++ "." ++ toString (YStream.Next (ti'.tags (TagInformer.key org repo xy)))), ti', 1⟩

/-! ## Correctness of the sorted dedup-insert -/

/-- `goSearch` returns the least index at which the monotone predicate `f`
holds (or `hi` if it holds nowhere in `[lo, hi)`). -/
theorem goSearch_spec (f : Nat → Bool) (hf : ∀ a b, a ≤ b → f a = true → f b = true) :
    ∀ fuel lo hi, hi - lo ≤ fuel → lo ≤ hi →
      lo ≤ goSearch f lo hi ∧ goSearch f lo hi ≤ hi ∧
      (∀ k, lo ≤ k → k < goSearch f lo hi → f k = false) ∧
      (∀ k, goSearch f lo hi ≤ k → k < hi → f k = true) := by
  intro fuel
  induction fuel with
  | zero =>
    intro lo hi hfuel hle
    have heq : lo = hi := by omega
    subst heq
    rw [goSearch]
    simp only [lt_irrefl, dif_neg, not_false_iff]
    refine ⟨le_refl _, le_refl _, ?_, ?_⟩ <;> intro k h1 h2 <;> omega
  | succ n ih =>
    intro lo hi hfuel hle
    by_cases hlh : lo < hi
    · rw [goSearch, dif_pos hlh]
      cases hfm : f ((lo + hi) / 2) with
      | true =>
        simp only [if_pos]
        obtain ⟨h1, h2, h3, h4⟩ := ih lo ((lo + hi) / 2) (by omega) (by omega)
        refine ⟨h1, by omega, h3, ?_⟩
        intro k hk1 hk2
        by_cases hkm : k < (lo + hi) / 2
        · exact h4 k hk1 hkm
        · exact hf _ k (by omega) hfm
      | false =>
        simp only [Bool.false_eq_true, if_neg, not_false_iff]
        obtain ⟨h1, h2, h3, h4⟩ := ih ((lo + hi) / 2 + 1) hi (by omega) (by omega)
        refine ⟨by omega, h2, ?_, h4⟩
        intro k hk1 hk2
        by_cases hkm : (lo + hi) / 2 + 1 ≤ k
        · exact h3 k hkm hk2
        · cases hfk : f k with
          | false => rfl
          | true => exact absurd (hf k ((lo + hi) / 2) (by omega) hfk) (by simp [hfm])
    · have heq : lo = hi := by omega
      subst heq
      rw [goSearch]
      simp only [lt_irrefl, dif_neg, not_false_iff]
      refine ⟨le_refl _, le_refl _, ?_, ?_⟩ <;> intro k h1 h2 <;> omega

/-- The search predicate of `searchInts` is monotone on a list sorted in
(strictly) ascending order. -/
theorem searchInts_pred_mono (a : List Nat) (x : Nat)
    (ha : a.Pairwise (· < ·)) :
    ∀ p q, p ≤ q → decide (x ≤ a.getD p x) = true → decide (x ≤ a.getD q x) = true := by
  intro p q hpq hp
  rw [decide_eq_true_iff] at hp ⊢
  by_cases hq : q < a.length
  · have hpl : p < a.length := lt_of_le_of_lt hpq hq
    rw [List.getD_eq_getElem a x hpl] at hp
    rw [List.getD_eq_getElem a x hq]
    rcases Nat.lt_or_ge p q with hlt | hge
    · have := List.pairwise_iff_get.1 ha ⟨p, hpl⟩ ⟨q, hq⟩ hlt
      simp only [List.get_eq_getElem] at this
      omega
    · have : p = q := by omega
      subst this
      exact hp
  · have : a.getD q x = x := by
      simp [List.getD_eq_getElem?_getD, List.getElem?_eq_none (by omega : a.length ≤ q)]
    rw [this]

/-- The index returned by `searchInts` on a sorted list: everything before
it is `< x`, everything from it on is `≥ x`. -/
theorem searchInts_spec (a : List Nat) (x : Nat) (ha : a.Pairwise (· < ·)) :
    searchInts a x ≤ a.length ∧
    (∀ k, k < searchInts a x → ∀ h : k < a.length, a[k] < x) ∧
    (∀ k, searchInts a x ≤ k → ∀ h : k < a.length, x ≤ a[k]) := by
  obtain ⟨h1, h2, h3, h4⟩ := goSearch_spec _ (searchInts_pred_mono a x ha)
    a.length 0 a.length (by omega) (by omega)
  rw [searchInts] at *
  refine ⟨h2, ?_, ?_⟩
  · intro k hk h
    have := h3 k (Nat.zero_le k) hk
    rw [decide_eq_false_iff_not] at this
    rw [List.getD_eq_getElem a x h] at this
    omega
  · intro k hk h
    have := h4 k hk h
    rw [decide_eq_true_iff] at this
    rwa [List.getD_eq_getElem a x h] at this

/-- `YStream.Add` preserves sortedness and inserts exactly `z` into the set
of members. -/
theorem YStream.Add_spec (y : YStream) (z : Nat)
    (hy : y.patchVersions.Pairwise (· < ·)) :
    (y.Add z).patchVersions.Pairwise (· < ·) ∧
    ∀ x, x ∈ (y.Add z).patchVersions ↔ x ∈ y.patchVersions ∨ x = z := by
  obtain ⟨hle, hlt, hge⟩ := searchInts_spec y.patchVersions z hy
  set a := y.patchVersions with ha
  set i := searchInts a z with hi
  rw [YStream.Add]
  by_cases hdup : i < a.length && a.getD i 0 == z
  · simp only [← ha, ← hi, hdup, if_pos]
    rw [Bool.and_eq_true, beq_iff_eq, decide_eq_true_iff] at hdup
    obtain ⟨hil, hiz⟩ := hdup
    rw [List.getD_eq_getElem a 0 hil] at hiz
    refine ⟨hy, fun x => ⟨fun h => Or.inl h, fun h => ?_⟩⟩
    rcases h with h | h
    · exact h
    · subst h
      exact hiz ▸ List.getElem_mem hil
  · simp only [← ha, ← hi, hdup, if_neg, Bool.not_eq_true]
    constructor
    · -- sortedness of `take i ++ z :: drop i`
      rw [List.pairwise_append]
      have htake : ∀ u ∈ a.take i, u < z := by
        intro u hu
        rw [List.mem_iff_getElem] at hu
        obtain ⟨j, hj, hju⟩ := hu
        have hjlen : j < a.length := by
          have := hj; simp only [List.length_take] at this; omega
        have hji : j < i := by
          have := hj; simp only [List.length_take] at this; omega
        rw [List.getElem_take] at hju
        exact hju ▸ hlt j hji hjlen
      have hdrop : ∀ u ∈ a.drop i, z < u := by
        intro u hu
        rw [List.mem_iff_getElem] at hu
        obtain ⟨j, hj, hju⟩ := hu
        have hjlen : i + j < a.length := by
          have := hj; simp only [List.length_drop] at this; omega
        rw [List.getElem_drop] at hju
        have hzle : z ≤ a[i + j] := hge (i + j) (by omega) hjlen
        -- strictness: `a[i] ≠ z` (the duplicate branch was not taken)
        have hil : i < a.length := by omega
        have hne : a[i] ≠ z := by
          intro hcontra
          apply hdup
          rw [Bool.and_eq_true, beq_iff_eq, decide_eq_true_iff]
          exact ⟨hil, by rw [List.getD_eq_getElem a 0 hil]; exact hcontra⟩
        have hzi : z < a[i] := lt_of_le_of_ne (hge i (le_refl i) hil) (Ne.symm hne)
        have : a[i] ≤ a[i + j] := by
          rcases Nat.eq_zero_or_pos j with hj0 | hj0
          · subst hj0; simp
          · have := List.pairwise_iff_get.1 hy ⟨i, hil⟩ ⟨i + j, hjlen⟩ (by simp; omega)
            simp only [List.get_eq_getElem] at this
            omega
        omega
      refine ⟨hy.sublist (List.take_sublist i a), ?_, ?_⟩
      · rw [List.pairwise_cons]
        exact ⟨hdrop, hy.sublist (List.drop_sublist i a)⟩
      · intro u hu v hv
        rcases List.mem_cons.1 hv with hv | hv
        · exact hv ▸ htake u hu
        · exact lt_trans (htake u hu) (hdrop v hv)
    · -- membership
      intro x
      constructor
      · intro hx
        rcases List.mem_append.1 hx with hx | hx
        · exact Or.inl ((List.take_sublist i a).mem hx)
        · rcases List.mem_cons.1 hx with hx | hx
          · exact Or.inr hx
          · exact Or.inl ((List.drop_sublist i a).mem hx)
      · intro hx
        rcases hx with hx | hx
        · rw [← List.take_append_drop i a] at hx
          rcases List.mem_append.1 hx with hx | hx
          · exact List.mem_append.2 (Or.inl hx)
          · exact List.mem_append.2 (Or.inr (List.mem_cons.2 (Or.inr hx)))
        · exact List.mem_append.2 (Or.inr (List.mem_cons.2 (Or.inl hx)))

/-- The last element of a list sorted in strictly ascending order is a
member and an upper bound. -/
theorem getLast_is_max (l : List Nat) (hl : l.Pairwise (· < ·)) :
    ∀ m, l.getLast? = some m → m ∈ l ∧ ∀ x ∈ l, x ≤ m := by
  induction l with
  | nil => intro m hm; simp at hm
  | cons a t ih =>
    intro m hm
    cases t with
    | nil =>
      simp only [List.getLast?_singleton, Option.some.injEq] at hm
      subst hm
      refine ⟨List.mem_singleton_self a, ?_⟩
      intro x hx
      rw [List.mem_singleton] at hx
      omega
    | cons b t' =>
      rw [List.getLast?_cons_cons] at hm
      obtain ⟨hrel, hpt⟩ := List.pairwise_cons.1 hl
      obtain ⟨hmem, hub⟩ := ih hpt m hm
      refine ⟨List.mem_cons.2 (Or.inr hmem), ?_⟩
      intro x hx
      rcases List.mem_cons.1 hx with hx | hx
      · subst hx
        exact le_of_lt (lt_of_lt_of_le (hrel m hmem) (le_refl m))
      · exact hub x hx

/-- Folding `YStream.Add` over any sequence preserves sortedness and the
members of the result are the members of the start plus the folded
elements. -/
theorem foldl_Add_spec (zs : List Nat) :
    ∀ y : YStream, y.patchVersions.Pairwise (· < ·) →
      (zs.foldl YStream.Add y).patchVersions.Pairwise (· < ·) ∧
      ∀ x, x ∈ (zs.foldl YStream.Add y).patchVersions ↔ x ∈ y.patchVersions ∨ x ∈ zs := by
  induction zs with
  | nil =>
    intro y hy
    refine ⟨hy, fun x => ?_⟩
    simp
  | cons z zs ih =>
    intro y hy
    obtain ⟨hs, hmem⟩ := YStream.Add_spec y z hy
    obtain ⟨hs', hmem'⟩ := ih (y.Add z) hs
    rw [List.foldl_cons]
    refine ⟨hs', fun x => ?_⟩
    rw [hmem' x, hmem x, List.mem_cons]
    tauto

/-- `foldr Nat.max 0` is an upper bound of the list. -/
theorem foldr_max_ub (zs : List Nat) : ∀ x ∈ zs, x ≤ zs.foldr Nat.max 0 := by
  induction zs with
  | nil => simp
  | cons a t ih =>
    intro x hx
    rw [List.foldr_cons]
    rcases List.mem_cons.1 hx with h | h
    · subst h
      exact le_max_left _ _
    · exact le_trans (ih x h) (le_max_right _ _)

/-- `foldr Nat.max 0` of a non-empty list is one of its elements. -/
theorem foldr_max_mem (zs : List Nat) (h : zs ≠ []) : zs.foldr Nat.max 0 ∈ zs := by
  induction zs with
  | nil => exact absurd rfl h
  | cons a t ih =>
    cases t with
    | nil => simp
    | cons b t' =>
      rw [List.foldr_cons]
      rcases Nat.le_total a ((b :: t').foldr Nat.max 0) with hm | hm
      · have hEq : Nat.max a ((b :: t').foldr Nat.max 0) = (b :: t').foldr Nat.max 0 :=
          Nat.max_eq_right hm
        rw [hEq]
        exact List.mem_cons.2 (Or.inr (ih (by simp)))
      · have hEq : Nat.max a ((b :: t').foldr Nat.max 0) = a :=
          Nat.max_eq_left hm
        rw [hEq]
        exact List.mem_cons_self a _

/-- `Next` of a stream built by inserting the sequence `zs` into an empty
stream is `0` for an empty sequence and `max + 1` otherwise. -/
theorem Next_foldl_eq_nextOfMax (zs : List Nat) :
    YStream.Next (some (zs.foldl YStream.Add ⟨[]⟩)) = nextOfMax zs := by
  obtain ⟨hs, hmem⟩ := foldl_Add_spec zs ⟨[]⟩ (by simp)
  by_cases hz : zs = []
  · subst hz
    simp [YStream.Next, nextOfMax]
  · have hmem' : ∀ x, x ∈ (zs.foldl YStream.Add ⟨[]⟩).patchVersions ↔ x ∈ zs := by
      intro x
      rw [hmem x]
      simp
    have hLne : (zs.foldl YStream.Add ⟨[]⟩).patchVersions ≠ [] := by
      intro hc
      obtain ⟨w, hw⟩ := List.exists_mem_of_ne_nil zs hz
      have := (hmem' w).2 hw
      rw [hc] at this
      simp at this
    cases hlast : (zs.foldl YStream.Add ⟨[]⟩).patchVersions.getLast? with
    | none => exact absurd (List.getLast?_eq_none_iff.1 hlast) hLne
    | some m =>
      obtain ⟨hmmem, hub⟩ := getLast_is_max _ hs m hlast
      have hmzs : m ∈ zs := (hmem' m).1 hmmem
      have hM : zs.foldr Nat.max 0 = m := by
        have h1 : zs.foldr Nat.max 0 ≤ m := hub _ ((hmem' _).2 (foldr_max_mem zs hz))
        have h2 : m ≤ zs.foldr Nat.max 0 := foldr_max_ub zs m hmzs
        omega
      rw [YStream.Next, hlast, nextOfMax, if_neg (by simp [hz]), hM]

/-- The stream keys of two different streams of the same repository are
different. -/
theorem key_inj (org repo : String) {a b : String}
    (h : TagInformer.key org repo a = TagInformer.key org repo b) : a = b := by
  rw [TagInformer.key, TagInformer.key] at h
  apply String.ext
  have hd := congrArg String.data h
  simp only [String.data_append] at hd
  exact List.append_cancel_left hd

/-- `streamPatches` unfolded over a cons. -/
theorem streamPatches_cons (r : String) (rs : List String) (xy : String) :
    streamPatches (r :: rs) xy =
      match parseRef r with
      | some (s, z) => if s = xy then z :: streamPatches rs xy else streamPatches rs xy
      | none => streamPatches rs xy := by
  rw [streamPatches, List.filterMap_cons]
  cases hp : parseRef r with
  | none => rfl
  | some p =>
    obtain ⟨s, z⟩ := p
    by_cases hs : s = xy
    · simp [hs, streamPatches]
    · simp [hs, streamPatches]

/-- Evaluating the tag map built by `addRefs` at one stream key: it is the
option-level fold of the sorted insert over exactly the patch numbers that
parse to that stream. -/
theorem addRefs_tags_key (org repo xy : String) :
    ∀ (refs : List String) (m0 : String → Option YStream),
      (refs.foldl (addRefStep org repo) m0) (TagInformer.key org repo xy) =
      (streamPatches refs xy).foldl
        (fun o z => some ((o.getD ⟨[]⟩).Add z)) (m0 (TagInformer.key org repo xy)) := by
  intro refs
  induction refs with
  | nil => intro m0; rfl
  | cons r rs ih =>
    intro m0
    rw [List.foldl_cons, streamPatches_cons]
    cases hp : parseRef r with
    | none =>
      have hstep : addRefStep org repo m0 r = m0 := by
        rw [addRefStep, hp]
      rw [hstep, ih]
    | some p =>
      obtain ⟨xy', z⟩ := p
      simp only [hp]
      by_cases hxy : xy' = xy
      · subst hxy
        rw [if_pos rfl, ih, List.foldl_cons]
        congr 1
        rw [addRefStep, hp]
        simp
      · rw [if_neg hxy, ih]
        have hk : TagInformer.key org repo xy ≠ TagInformer.key org repo xy' :=
          fun hc => hxy (key_inj org repo hc).symm
        have hstep : addRefStep org repo m0 r (TagInformer.key org repo xy) =
            m0 (TagInformer.key org repo xy) := by
          rw [addRefStep, hp]
          simp [hk]
        rw [hstep]

/-- Folding the option-level insert from a present stream is the plain
fold. -/
theorem optFold_some (zs : List Nat) :
    ∀ y : YStream,
      zs.foldl (fun o z => some ((o.getD ⟨[]⟩).Add z)) (some y) =
        some (zs.foldl YStream.Add y) := by
  induction zs with
  | nil => intro y; rfl
  | cons z zs ih =>
    intro y
    rw [List.foldl_cons, List.foldl_cons]
    exact ih (y.Add z)

/-- The tag map of a freshly synced repository at stream `xy`: absent if no
ref parsed to that stream, otherwise the fold of the sorted insert over the
parsed patch numbers. -/
theorem addRefs_stream (org repo xy : String) (refs : List String) :
    (TagInformer.New.addRefs org repo refs).tags (TagInformer.key org repo xy) =
      if streamPatches refs xy = [] then none
      else some ((streamPatches refs xy).foldl YStream.Add ⟨[]⟩) := by
  have h : (TagInformer.New.addRefs org repo refs).tags (TagInformer.key org repo xy) =
      (streamPatches refs xy).foldl (fun o z => some ((o.getD ⟨[]⟩).Add z))
        (TagInformer.New.tags (TagInformer.key org repo xy)) :=
    addRefs_tags_key org repo xy refs TagInformer.New.tags
  rw [h]
  cases hsp : streamPatches refs xy with
  | nil => rfl
  | cons z rest =>
    rw [if_neg (by simp), List.foldl_cons, List.foldl_cons]
    exact optFold_some rest (YStream.Add ⟨[]⟩ z)

/-- `addRefs` marks the repository synced. -/
theorem addRefs_hasSynced (ti : TagInformer) (org repo : String) (refs : List String) :
    (ti.addRefs org repo refs).hasSynced org repo = true := by
  simp [TagInformer.hasSynced, TagInformer.addRefs]

/-! ## Claim theorems for the VersionCache -/

/-- C1: For every finite sequence of patch numbers added to a `YStream` via
`Add`, in any order and with duplicates allowed, `Next` returns the maximum
added value plus 1 (and 0 if nothing was added); consequently `NextVersion`
on a synced cache (the state right after a successful tag fetch) returns
`"<xy>.<n>"` where `n` is `1 +` the maximum patch number parsed from the
repository's tags for stream `xy`, or `"<xy>.0"` if no tag of that stream
was observed. -/
theorem NextVersion_max_plus_one (zs : List Nat) (org repo xy : String)
    (refs : List String) (fetch : Except String (List String)) :
    YStream.Next (some (zs.foldl YStream.Add ⟨[]⟩)) = nextOfMax zs ∧
    (TagInformer.New.addRefs org repo refs).NextVersion fetch org repo xy =
      ⟨.ok (xy ++ "." ++ toString (nextOfMax (streamPatches refs xy))),
       TagInformer.New.addRefs org repo refs, 0⟩ := by
  refine ⟨Next_foldl_eq_nextOfMax zs, ?_⟩
  rw [TagInformer.NextVersion.eq_def, if_pos (addRefs_hasSynced TagInformer.New org repo refs)]
  have hN : YStream.Next ((TagInformer.New.addRefs org repo refs).tags
      (TagInformer.key org repo xy)) = nextOfMax (streamPatches refs xy) := by
    rw [addRefs_stream]
    by_cases hsp : streamPatches refs xy = []
    · rw [if_pos hsp, hsp]
      simp [YStream.Next, nextOfMax]
    · rw [if_neg hsp, Next_foldl_eq_nextOfMax]
  rw [hN]

/-- C6: After `InvalidateCache`, any `NextVersion` call performs exactly one
tag-listing fetch before returning, regardless of the prior cache state; if
the fetch fails, the call returns the wrapped error with the synced flag
still unset, so the next call fetches again. -/
theorem invalidate_forces_single_refetch (ti : TagInformer)
    (fetch fetch2 : Except String (List String)) (org repo xy : String) :
    ((ti.InvalidateCache).NextVersion fetch org repo xy).fetches = 1 ∧
    ∀ e, fetch = .error e →
      ((ti.InvalidateCache).NextVersion fetch org repo xy).result =
        .error ("failed to list tags: " ++ e) ∧
      ((ti.InvalidateCache).NextVersion fetch org repo xy).state.hasSynced org repo = false ∧
      (((ti.InvalidateCache).NextVersion fetch org repo xy).state.NextVersion
        fetch2 org repo xy).fetches = 1 := by
  have hns : (ti.InvalidateCache).hasSynced org repo = false := rfl
  constructor
  · rw [TagInformer.NextVersion.eq_def, if_neg (by rw [hns]; simp)]
    cases fetch <;> rfl
  · intro e he
    subst he
    rw [TagInformer.NextVersion.eq_def, if_neg (by rw [hns]; simp)]
    refine ⟨rfl, rfl, ?_⟩
    rw [TagInformer.NextVersion.eq_def, if_neg (by rw [hns]; simp)]
    cases fetch2 <;> rfl

/-- Witness for C6 at a concrete input: a failed fetch after invalidation
returns the wrapped error and counts exactly one fetch. -/
theorem invalidate_forces_single_refetch_witness :
    ((TagInformer.New.InvalidateCache).NextVersion (Except.error "boom") "o" "r" "3.8").fetches
      = 1 ∧
    ((TagInformer.New.InvalidateCache).NextVersion (Except.error "boom") "o" "r" "3.8").result
      = Except.error ("failed to list tags: " ++ "boom") := by
  have h := invalidate_forces_single_refetch TagInformer.New
    (Except.error "boom") (Except.ok []) "o" "r" "3.8"
  exact ⟨h.1, (h.2 "boom" rfl).1⟩

/-- C10: On a synced cache, a stream for which no tag parsed yields the
first version `"<xy>.0"` with no error and no fetch: the lookup of an
absent stream is a `nil` `YStream` whose `Next` is total and returns 0. -/
theorem NextVersion_unknown_stream (org repo xy : String) (refs : List String)
    (fetch : Except String (List String)) (h : streamPatches refs xy = []) :
    (TagInformer.New.addRefs org repo refs).NextVersion fetch org repo xy =
      ⟨.ok (xy ++ ".0"), TagInformer.New.addRefs org repo refs, 0⟩ := by
  rw [TagInformer.NextVersion.eq_def, if_pos (addRefs_hasSynced TagInformer.New org repo refs)]
  rw [addRefs_stream, if_pos h]
  have hs : xy ++ "." ++ toString (YStream.Next none) = xy ++ ".0" := by
    rw [show toString (YStream.Next none) = "0" from rfl, String.append_assoc]
    rfl
  rw [hs]

/-- Witness for C10 at a concrete input: a cache synced from one `v3.8.1`
tag yields `3.9.0` for the unseen stream `3.9`. -/
theorem NextVersion_unknown_stream_witness :
    streamPatches ["refs/tags/v3.8.1"] "3.9" = [] ∧
    (TagInformer.New.addRefs "o" "r" ["refs/tags/v3.8.1"]).NextVersion
        (Except.ok []) "o" "r" "3.9" =
      ⟨Except.ok ("3.9" ++ ".0"), TagInformer.New.addRefs "o" "r" ["refs/tags/v3.8.1"], 0⟩ :=
  ⟨by decide,
   NextVersion_unknown_stream "o" "r" "3.9" ["refs/tags/v3.8.1"] (Except.ok []) (by decide)⟩

/-! ## StatusStore and SyncEngine: `main.go` -/

/-- Embeds `BranchSyncStatus` (main.go:37).  Times are `Nat` (Go
`time.Time`, zero value `0`). -/
structure BranchSyncStatus where
  status : String
  message : String
  lastHeartbeatTime : Nat
  lastTransitionTime : Nat
deriving DecidableEq

/-- Embeds `BranchStatus` (main.go:44). -/
structure BranchStatus where
  branch : String
  fixVersion : String := ""
  syncStatus : Option BranchSyncStatus := none
deriving DecidableEq

/-- Embeds `Status` (main.go:50). -/
structure Status where
  branches : List BranchStatus
deriving DecidableEq

/-- Embeds the body of `StatusInformer.UpdateBranchSyncStatus`
(main.go:108-139) as a value-level list update: the first entry whose
branch matches is updated in place (a `nil` sync status is treated as the
zero `BranchSyncStatus`, as the Go code allocates `&BranchSyncStatus{}`);
status, message and the transition time are written only when the stored
(status, message) pair differs, the heartbeat time is always written; if no
entry matches, a new entry with both times set to `now` is appended. -/
def updateBranchList (branch status message : String) (now : Nat) :
    List BranchStatus → List BranchStatus
  | [] => [⟨branch, "", some ⟨status, message, now, now⟩⟩]
  | b :: bs =>
    if b.branch = branch then
      let ss := b.syncStatus.getD ⟨"", "", 0, 0⟩
      let ss' :=
        if ss.status ≠ status ∨ ss.message ≠ message then
          ⟨status, message, now, now⟩
        else
          { ss with lastHeartbeatTime := now }
      { b with syncStatus := some ss' } :: bs
    else
      b :: updateBranchList branch status message now bs

/-- Embeds `StatusInformer.UpdateBranchSyncStatus` (main.go:108) at the
`Status` level. -/
def updateBranchSyncStatus (s : Status) (branch status message : String) (now : Nat) :
    Status :=
  ⟨updateBranchList branch status message now s.branches⟩

/-- The sync-status entry stored for `branch` (with the Go zero value for a
present entry whose sync status pointer is `nil`). -/
def storedSync (s : Status) (branch : String) : Option BranchSyncStatus :=
  (s.branches.find? (fun b => b.branch = branch)).map
    (fun b => b.syncStatus.getD ⟨"", "", 0, 0⟩)

/-- The state string stored for `branch` (read-side helper). -/
def statusState (s : Status) (branch : String) : Option String :=
  (storedSync s branch).map (fun ss => ss.status)

/-- The message string stored for `branch` (read-side helper). -/
def statusMessage (s : Status) (branch : String) : Option String :=
  (storedSync s branch).map (fun ss => ss.message)

/-- Embeds `BranchReference` (configuration/types.go). -/
structure BranchRef where
  owner : String
  repo : String
  branch : String
deriving DecidableEq

/-- Embeds `BranchReference.String()`: `"owner/repo:branch"`. -/
def BranchRef.str (b : BranchRef) : String :=
  b.owner ++ "/" ++ b.repo ++ ":" ++ b.branch

/-- One remote call issued by the sync engine against the GitHub API. -/
inductive GitCall where
  | getRef (r : BranchRef)
  | updateRef (r : BranchRef) (sha : String)
deriving DecidableEq

/-- Abstraction of the GitHub ref store consumed by `reactor.sync` (per §6
of the spec): `refs` is the outcome of `GetRef` for each branch (an error
message or a commit SHA), and `ffOK old new` decides whether a non-force
`UpdateRef` from `old` to `new` is a fast-forward (GitHub rejects non-force
non-fast-forward updates). -/
structure Remote where
  refs : BranchRef → Except String String
  ffOK : String → String → Bool

/-- A non-force `UpdateRef` call: fails on a non-fast-forward change,
otherwise sets the destination ref to the new SHA. -/
def Remote.updateRef (rm : Remote) (dest : BranchRef) (sha : String) :
    Except String Remote :=
  match rm.refs dest with
  | .error e => .error e
  | .ok old =>
    if rm.ffOK old sha then
      .ok { rm with refs := fun b => if b = dest then .ok sha else rm.refs b }
    else .error "non-fast-forward"

/-- The outcome of one `reactor.sync` call: the returned error (if any), the
remote afterwards, the status store afterwards, and the remote calls
issued, in order. -/
structure SyncResult where
  result : Except String Unit
  remote : Remote
  status : Status
  calls : List GitCall

/-- Embeds `reactor.sync` (main.go:160-195): read the source head, read the
destination head (recording an Error status and stopping on either read
failure), issue a non-force update only when the two heads differ, and
record a Synced status on success. -/
def sync (rm : Remote) (si : Status) (now : Nat) (dest src : BranchRef) : SyncResult :=
  match rm.refs src with
  | .error e =>
    let msg := "failed to get source ref: " ++ e
    ⟨.error msg, rm, updateBranchSyncStatus si dest.str "Error" msg now, [.getRef src]⟩
  | .ok srcSha =>
    match rm.refs dest with
    | .error e =>
      let msg := "failed to get destination ref: " ++ e
      ⟨.error msg, rm, updateBranchSyncStatus si dest.str "Error" msg now,
       [.getRef src, .getRef dest]⟩
    | .ok destSha =>
      if destSha ≠ srcSha then
        match rm.updateRef dest srcSha with
        | .error e =>
          let msg := "failed to update " ++ dest.str ++ ": " ++ e
          ⟨.error msg, rm, updateBranchSyncStatus si dest.str "Error" msg now,
           [.getRef src, .getRef dest, .updateRef dest srcSha]⟩
        | .ok rm' =>
          ⟨.ok (), rm',
           updateBranchSyncStatus si dest.str "Synced"
             ("synched from " ++ src.str ++ ", commit: " ++ srcSha) now,
           [.getRef src, .getRef dest, .updateRef dest srcSha]⟩
      else
        ⟨.ok (), rm,
         updateBranchSyncStatus si dest.str "Synced"
           ("synched from " ++ src.str ++ ", commit: " ++ srcSha) now,
         [.getRef src, .getRef dest]⟩

/-- What one update does to the stored entry of the updated branch. -/
theorem storedSync_update (s : Status) (branch status message : String) (now : Nat) :
    storedSync (updateBranchSyncStatus s branch status message now) branch =
      some (match storedSync s branch with
        | none => ⟨status, message, now, now⟩
        | some ss =>
          if ss.status ≠ status ∨ ss.message ≠ message then ⟨status, message, now, now⟩
          else { ss with lastHeartbeatTime := now }) := by
  rw [storedSync, storedSync, updateBranchSyncStatus]
  induction s.branches with
  | nil =>
    rw [updateBranchList]
    rw [List.find?_cons_of_pos _ (by simp), List.find?_nil]
    rfl
  | cons b bs ih =>
    by_cases hb : b.branch = branch
    · rw [updateBranchList, if_pos hb]
      rw [List.find?_cons_of_pos _ (by simp [hb]), List.find?_cons_of_pos _ (by simp [hb])]
      rfl
    · rw [updateBranchList, if_neg hb]
      rw [List.find?_cons_of_neg _ (by simp [hb]), List.find?_cons_of_neg _ (by simp [hb])]
      exact ih

/-- After an update, the stored state and message of the updated branch are
the ones just recorded. -/
theorem statusState_update (s : Status) (branch status message : String) (now : Nat) :
    statusState (updateBranchSyncStatus s branch status message now) branch = some status ∧
    statusMessage (updateBranchSyncStatus s branch status message now) branch = some message := by
  rw [statusState, statusMessage, storedSync_update]
  cases h : storedSync s branch with
  | none => exact ⟨rfl, rfl⟩
  | some ss =>
    simp only [Option.map_some]
    by_cases hc : ss.status ≠ status ∨ ss.message ≠ message
    · rw [if_pos hc]
      exact ⟨rfl, rfl⟩
    · rw [if_neg hc]
      push_neg at hc
      exact ⟨by simp [hc.1], by simp [hc.2]⟩

/-- C8: for every store state and every `UpdateBranchSyncStatus` call, the
updated branch's last-heartbeat-time is always set to the call's time,
while its last-transition-time is set to the call's time exactly when the
call creates the entry or the recorded (state, message) pair differs from
the stored one, and is left at its previous value otherwise.  (The
single-call characterisation over an arbitrary prior state covers every
sequence of calls.) -/
theorem update_branch_sync_status_timestamps (s : Status)
    (branch status message : String) (now : Nat) :
    (storedSync (updateBranchSyncStatus s branch status message now) branch).map
        (fun ss => ss.lastHeartbeatTime) = some now ∧
    (storedSync (updateBranchSyncStatus s branch status message now) branch).map
        (fun ss => ss.lastTransitionTime) =
      some (match storedSync s branch with
        | none => now
        | some ss =>
          if ss.status ≠ status ∨ ss.message ≠ message then now
          else ss.lastTransitionTime) := by
  rw [storedSync_update]
  cases h : storedSync s branch with
  | none => exact ⟨rfl, rfl⟩
  | some ss =>
    by_cases hc : ss.status ≠ status ∨ ss.message ≠ message
    · simp only [Option.map_some, if_pos hc]
      exact ⟨rfl, rfl⟩
    · simp only [Option.map_some, if_neg hc]
      exact ⟨rfl, rfl⟩

/-- C3: if a `sync` succeeds and no remote change intervenes, the first call
records a Synced status, and a second call also succeeds, records a Synced
status again, and issues only the two ref reads (no update-ref call, since
source and destination heads are already equal). -/
theorem sync_idempotent (rm : Remote) (si : Status) (now1 now2 : Nat)
    (dest src : BranchRef)
    (h : (sync rm si now1 dest src).result = .ok ()) :
    statusState (sync rm si now1 dest src).status dest.str = some "Synced" ∧
    (sync (sync rm si now1 dest src).remote (sync rm si now1 dest src).status
        now2 dest src).result = .ok () ∧
    statusState (sync (sync rm si now1 dest src).remote (sync rm si now1 dest src).status
        now2 dest src).status dest.str = some "Synced" ∧
    (sync (sync rm si now1 dest src).remote (sync rm si now1 dest src).status
        now2 dest src).calls = [.getRef src, .getRef dest] := by
  rcases hs : rm.refs src with es | srcSha
  · simp [sync.eq_def, hs] at h
  · rcases hd : rm.refs dest with ed | destSha
    · simp [sync.eq_def, hs, hd] at h
    · by_cases hne : destSha = srcSha
      · -- already in sync: both calls take the read-only branch
        subst hne
        have he : ∀ (si' : Status) (now' : Nat), sync rm si' now' dest src =
            ⟨.ok (), rm,
             updateBranchSyncStatus si' dest.str "Synced"
               ("synched from " ++ src.str ++ ", commit: " ++ destSha) now',
             [.getRef src, .getRef dest]⟩ := by
          intro si' now'
          simp only [sync.eq_def, hs, hd]
          rw [if_neg (fun hc => hc rfl)]
        simp only [he]
        exact ⟨(statusState_update ..).1, trivial, (statusState_update ..).1, trivial⟩
      · -- an update was needed and, since the call succeeded, it went through
        rcases hu : rm.updateRef dest srcSha with eu | rm'
        · simp only [sync.eq_def, hs, hd] at h
          rw [if_pos hne] at h
          simp [hu] at h
        · simp only [Remote.updateRef, hd] at hu
          rcases hff : rm.ffOK destSha srcSha with _ | _
          · rw [hff] at hu
            simp at hu
          · rw [hff] at hu
            simp only [if_true, Except.ok.injEq] at hu
            have hrm'dest : rm'.refs dest = .ok srcSha := by
              rw [← hu]
              simp
            have hrm'src : rm'.refs src = .ok srcSha := by
              rw [← hu]
              by_cases hsd : src = dest
              · simp [hsd]
              · simp only [if_neg hsd]
                exact hs
            have he1 : sync rm si now1 dest src =
                ⟨.ok (), rm',
                 updateBranchSyncStatus si dest.str "Synced"
                   ("synched from " ++ src.str ++ ", commit: " ++ srcSha) now1,
                 [.getRef src, .getRef dest, .updateRef dest srcSha]⟩ := by
              simp only [sync.eq_def, hs, hd]
              rw [if_pos hne]
              have hu' : rm.updateRef dest srcSha = .ok rm' := by
                simp only [Remote.updateRef, hd, hff, if_true, hu]
              simp only [hu']
            have he2 : ∀ (si' : Status) (now' : Nat), sync rm' si' now' dest src =
                ⟨.ok (), rm',
                 updateBranchSyncStatus si' dest.str "Synced"
                   ("synched from " ++ src.str ++ ", commit: " ++ srcSha) now',
                 [.getRef src, .getRef dest]⟩ := by
              intro si' now'
              simp only [sync.eq_def, hrm'src, hrm'dest]
              rw [if_neg (fun hc => hc rfl)]
            simp only [he1, he2]
            exact ⟨(statusState_update ..).1, trivial, (statusState_update ..).1, trivial⟩

/-- Witness for C3 at a concrete input: a remote whose destination differs
from the source and accepts the fast-forward update. -/
theorem sync_idempotent_witness :
    statusState (sync
        ⟨fun b => if b = ⟨"o", "r", "rel"⟩ then Except.ok "a" else Except.ok "b",
         fun _ _ => true⟩
        ⟨[]⟩ 1 ⟨"o", "r", "rel"⟩ ⟨"o", "r", "main"⟩).status
      (BranchRef.str ⟨"o", "r", "rel"⟩) = some "Synced" ∧
    (sync (sync
        ⟨fun b => if b = ⟨"o", "r", "rel"⟩ then Except.ok "a" else Except.ok "b",
         fun _ _ => true⟩
        ⟨[]⟩ 1 ⟨"o", "r", "rel"⟩ ⟨"o", "r", "main"⟩).remote
      (sync
        ⟨fun b => if b = ⟨"o", "r", "rel"⟩ then Except.ok "a" else Except.ok "b",
         fun _ _ => true⟩
        ⟨[]⟩ 1 ⟨"o", "r", "rel"⟩ ⟨"o", "r", "main"⟩).status
      2 ⟨"o", "r", "rel"⟩ ⟨"o", "r", "main"⟩).calls =
      [GitCall.getRef ⟨"o", "r", "main"⟩, GitCall.getRef ⟨"o", "r", "rel"⟩] := by
  have h := sync_idempotent
    ⟨fun b => if b = ⟨"o", "r", "rel"⟩ then Except.ok "a" else Except.ok "b",
     fun _ _ => true⟩
    ⟨[]⟩ 1 2 ⟨"o", "r", "rel"⟩ ⟨"o", "r", "main"⟩ (by rfl)
  exact ⟨h.1, h.2.2.2⟩

/-- C4: a failed source read, a failed destination read, or a
non-fast-forward destination each make `sync` fail, record an Error status
whose message is the wrapped error, leave the remote untouched, and issue
no update-ref call in the read-failure cases. -/
theorem sync_failure_paths (rm : Remote) (si : Status) (now : Nat)
    (dest src : BranchRef) :
    (∀ e, rm.refs src = .error e →
      (sync rm si now dest src).result = .error ("failed to get source ref: " ++ e) ∧
      statusState (sync rm si now dest src).status dest.str = some "Error" ∧
      statusMessage (sync rm si now dest src).status dest.str =
        some ("failed to get source ref: " ++ e) ∧
      (sync rm si now dest src).calls = [.getRef src] ∧
      (sync rm si now dest src).remote = rm) ∧
    (∀ s e, rm.refs src = .ok s → rm.refs dest = .error e →
      (sync rm si now dest src).result = .error ("failed to get destination ref: " ++ e) ∧
      statusState (sync rm si now dest src).status dest.str = some "Error" ∧
      statusMessage (sync rm si now dest src).status dest.str =
        some ("failed to get destination ref: " ++ e) ∧
      (sync rm si now dest src).calls = [.getRef src, .getRef dest] ∧
      (sync rm si now dest src).remote = rm) ∧
    (∀ s d, rm.refs src = .ok s → rm.refs dest = .ok d → d ≠ s →
      rm.ffOK d s = false →
      (sync rm si now dest src).result =
        .error ("failed to update " ++ dest.str ++ ": " ++ "non-fast-forward") ∧
      statusState (sync rm si now dest src).status dest.str = some "Error" ∧
      (sync rm si now dest src).remote = rm) := by
  refine ⟨?_, ?_, ?_⟩
  · intro e hsrc
    rw [sync.eq_def, hsrc]
    exact ⟨rfl, (statusState_update ..).1, (statusState_update ..).2, rfl, rfl⟩
  · intro s e hsrc hdest
    rw [sync.eq_def, hsrc, hdest]
    exact ⟨rfl, (statusState_update ..).1, (statusState_update ..).2, rfl, rfl⟩
  · intro s d hsrc hdest hne hff
    have hu : rm.updateRef dest s = .error "non-fast-forward" := by
      simp only [Remote.updateRef, hdest, hff]
      simp
    simp only [sync.eq_def, hsrc, hdest]
    rw [if_pos hne]
    simp only [hu]
    exact ⟨by trivial, (statusState_update ..).1, by trivial⟩

/-- Witness for C4 at concrete inputs covering all three failure paths. -/
theorem sync_failure_paths_witness :
    (sync ⟨fun _ => Except.error "down", fun _ _ => true⟩ ⟨[]⟩ 1
        ⟨"o", "r", "rel"⟩ ⟨"o", "r", "main"⟩).result =
      Except.error ("failed to get source ref: " ++ "down") ∧
    (sync ⟨fun b => if b = ⟨"o", "r", "main"⟩ then Except.ok "a" else Except.error "gone",
        fun _ _ => true⟩ ⟨[]⟩ 1 ⟨"o", "r", "rel"⟩ ⟨"o", "r", "main"⟩).result =
      Except.error ("failed to get destination ref: " ++ "gone") ∧
    (sync ⟨fun b => if b = ⟨"o", "r", "main"⟩ then Except.ok "a" else Except.ok "b",
        fun _ _ => false⟩ ⟨[]⟩ 1 ⟨"o", "r", "rel"⟩ ⟨"o", "r", "main"⟩).remote =
      ⟨fun b => if b = ⟨"o", "r", "main"⟩ then Except.ok "a" else Except.ok "b",
       fun _ _ => false⟩ := by
  refine ⟨?_, ?_, ?_⟩
  · exact ((sync_failure_paths ⟨fun _ => Except.error "down", fun _ _ => true⟩ ⟨[]⟩ 1
      ⟨"o", "r", "rel"⟩ ⟨"o", "r", "main"⟩).1 "down" rfl).1
  · exact ((sync_failure_paths
      ⟨fun b => if b = ⟨"o", "r", "main"⟩ then Except.ok "a" else Except.error "gone",
       fun _ _ => true⟩ ⟨[]⟩ 1 ⟨"o", "r", "rel"⟩ ⟨"o", "r", "main"⟩).2.1 "a" "gone"
      (by rfl) (by rfl)).1
  · exact ((sync_failure_paths
      ⟨fun b => if b = ⟨"o", "r", "main"⟩ then Except.ok "a" else Except.ok "b",
       fun _ _ => false⟩ ⟨[]⟩ 1 ⟨"o", "r", "rel"⟩ ⟨"o", "r", "main"⟩).2.2 "a" "b"
      (by rfl) (by rfl) (by decide) rfl).2.2

/-! ## Pointer-level StatusStore model (for the snapshot claim)

`BranchStatus.SyncStatus` is a Go pointer (`*BranchSyncStatus`).  The
value-level model above describes the store's own contents; to reason about
what a returned snapshot observes, the pointers are made explicit: an
optional address into a heap of allocated `BranchSyncStatus` objects. -/

/-- Pointer-level `BranchStatus` (main.go:44): `syncStatus` is an optional
address into the heap (`none` = nil pointer). -/
structure BranchStatusP where
  branch : String
  fixVersion : String := ""
  syncStatus : Option Nat := none
deriving DecidableEq

/-- The state of a `StatusInformer` (main.go:76) at the pointer level: the
allocated `BranchSyncStatus` objects (addressed by index) and the slice of
`BranchStatus` values. -/
structure StoreState where
  heap : List BranchSyncStatus
  branches : List BranchStatusP
deriving DecidableEq

/-- The in-place mutation of a pointed-to `BranchSyncStatus`
(main.go:120-126): status, message and transition time only when the
(status, message) pair differs, heartbeat always. -/
def mutateSS (ss : BranchSyncStatus) (status message : String) (now : Nat) :
    BranchSyncStatus :=
  if ss.status ≠ status ∨ ss.message ≠ message then ⟨status, message, now, now⟩
  else { ss with lastHeartbeatTime := now }

/-- Embeds `UpdateBranchSyncStatus` (main.go:108-139) at the pointer level:
walk the slice; on the first branch match, allocate a zero
`BranchSyncStatus` if the pointer is nil (main.go:117-119) and mutate the
pointed-to object in place; append a new entry with a fresh object if no
branch matches. -/
def updateBranchListP (heap : List BranchSyncStatus) (branch status message : String)
    (now : Nat) : List BranchStatusP → List BranchSyncStatus × List BranchStatusP
  | [] => (heap ++ [⟨status, message, now, now⟩], [⟨branch, "", some heap.length⟩])
  | b :: bs =>
    if b.branch = branch then
      match b.syncStatus with
      | none =>
        (heap ++ [mutateSS ⟨"", "", 0, 0⟩ status message now],
         { b with syncStatus := some heap.length } :: bs)
      | some addr =>
        (heap.set addr (mutateSS (heap.getD addr ⟨"", "", 0, 0⟩) status message now),
         b :: bs)
    else
      let r := updateBranchListP heap branch status message now bs
      (r.1, b :: r.2)

/-- `UpdateBranchSyncStatus` at the `StoreState` level. -/
def updateP (σ : StoreState) (branch status message : String) (now : Nat) : StoreState :=
  let r := updateBranchListP σ.heap branch status message now σ.branches
  ⟨r.1, r.2⟩

/-- Embeds `statusSnapshot` / `Status.DeepCopy` (main.go:54-60, 81-85):
`make` + `copy` duplicate the slice of `BranchStatus` structs, so the
snapshot carries the same `SyncStatus` addresses as the store — the
pointees are shared, not copied. -/
def statusSnapshotP (σ : StoreState) : List BranchStatusP := σ.branches

/-- Reading a branch of a snapshot: the `SyncStatus` pointer is
dereferenced against the current heap (as the JSON encoder of the
`/status` endpoint does when it serialises the snapshot). -/
def renderBranch (heap : List BranchSyncStatus) (b : BranchStatusP) : BranchStatus :=
  ⟨b.branch, b.fixVersion, b.syncStatus.map (fun a => heap.getD a ⟨"", "", 0, 0⟩)⟩

/-- Reading a whole snapshot against the current heap. -/
def render (heap : List BranchSyncStatus) (bs : List BranchStatusP) : List BranchStatus :=
  bs.map (renderBranch heap)

/-- C9 (code bug): `Status.DeepCopy` copies the slice but shares the
`*BranchSyncStatus` pointers, so a snapshot taken before an
`UpdateBranchSyncStatus` call observes the call's in-place mutation: with
one branch whose sync status lives at address 0 and reads `Synced`, the
snapshot rendered before the update shows `Synced` and the very same
snapshot rendered after the update shows `Error` — the returned value does
not stay unchanged. -/
theorem snapshot_mutated_by_update :
    render (StoreState.mk [⟨"Synced", "m", 1, 1⟩] [⟨"o/r:b", "", some 0⟩]).heap
        (statusSnapshotP ⟨[⟨"Synced", "m", 1, 1⟩], [⟨"o/r:b", "", some 0⟩]⟩) ≠
      render (updateP ⟨[⟨"Synced", "m", 1, 1⟩], [⟨"o/r:b", "", some 0⟩]⟩
          "o/r:b" "Error" "x" 2).heap
        (statusSnapshotP ⟨[⟨"Synced", "m", 1, 1⟩], [⟨"o/r:b", "", some 0⟩]⟩) ∧
    (render (StoreState.mk [⟨"Synced", "m", 1, 1⟩] [⟨"o/r:b", "", some 0⟩]).heap
        (statusSnapshotP ⟨[⟨"Synced", "m", 1, 1⟩], [⟨"o/r:b", "", some 0⟩]⟩)).map
      (fun b => b.syncStatus.map (fun ss => ss.status)) = [some "Synced"] ∧
    (render (updateP ⟨[⟨"Synced", "m", 1, 1⟩], [⟨"o/r:b", "", some 0⟩]⟩
          "o/r:b" "Error" "x" 2).heap
        (statusSnapshotP ⟨[⟨"Synced", "m", 1, 1⟩], [⟨"o/r:b", "", some 0⟩]⟩)).map
      (fun b => b.syncStatus.map (fun ss => ss.status)) = [some "Error"] := by
  refine ⟨?_, by decide, by decide⟩
  intro hc
  exact absurd (congrArg (fun l => l.map (fun b => b.syncStatus.map
    (fun ss => ss.status))) hc) (by decide)

/-! ## RuleEngine: `checks/jira.go` and `configuration/types.go` -/

/-- Embeds `configuration.JiraCondition`. -/
structure JiraCondition where
  status : List String := []
  merged : Option Bool := none
  hasFixVersion : Option Bool := none
  event : List String := []
deriving DecidableEq

/-- Embeds `configuration.JiraRule`. -/
structure JiraRule where
  transitionTo : String := ""
  setFixVersion : Bool := false
  when : JiraCondition := {}
  comment : String := ""
deriving DecidableEq

/-- Embeds `configuration.Jira` (`fixVersionPfx` embeds the Go field
`FixVersionPrefix`). -/
structure JiraConfig where
  key : String := ""
  fixVersionPfx : String := ""
  validIssueTypes : List String := []
  rules : List JiraRule := []
deriving DecidableEq

/-- Embeds `configuration.Branch` (the `SyncFrom` field is not used by the
rule engine). -/
structure BranchConfig where
  name : String := ""
  version : String := ""
deriving DecidableEq

/-- Embeds the fields of `github.PullRequest` read by the rule engine.
`mergedAt = none` embeds the zero `MergedAt` time (not merged). -/
structure PullRequest where
  title : String := ""
  baseOwner : String := ""
  baseRepo : String := ""
  headSHA : String := ""
  number : Nat := 0
  mergedAt : Option Nat := none
deriving DecidableEq

/-- Embeds the fields of `jira.Issue` read by the rule engine:
`issue.Fields.Status.Name` and the names of `issue.Fields.FixVersions`. -/
structure JiraIssue where
  key : String := ""
  statusName : String := ""
  fixVersions : List String := []
deriving DecidableEq

/-- Character-list prefix test (helper for `strings.HasPrefix`). -/
def listHasPfx : List Char → List Char → Bool
  | _, [] => true
  | [], _ :: _ => false
  | c :: cs, p :: ps => c == p && listHasPfx cs ps

/-- Embeds `strings.HasPrefix(s, pre)`. -/
def hasPrefixStr (s pre : String) : Bool := listHasPfx s.data pre.data

/-- Embeds `contains` (jira.go:33). -/
def containsStr (list : List String) (s : String) : Bool :=
  list.any (fun v => v == s)

/-- Embeds `matchCondition` (jira.go:42): the conjunction of the four
optional predicates; an absent predicate is vacuously true.  Go's
`merged := !pr.GetMergedAt().IsZero()` is `pr.mergedAt.isSome`. -/
def matchCondition (event : String) (issue : JiraIssue) (pr : PullRequest)
    (fixVersion : String) (cond : JiraCondition) : Bool :=
  if cond.status.length > 0 && !(containsStr cond.status issue.statusName) then false
  else if (match cond.merged with
           | some m => pr.mergedAt.isSome != m
           | none => false) then false
  else if (match cond.hasFixVersion with
           | some hv => fixVersion == "" || (containsStr issue.fixVersions fixVersion != hv)
           | none => false) then false
  else if cond.event.length != 0 && !(containsStr cond.event event) then false
  else true

/-- Uppercase A–Z (the regex class `[A-Z]`). -/
def isUpperAZ (c : Char) : Bool := 'A' ≤ c && c ≤ 'Z'

/-- Decimal digit (the regex class `[0-9]`). -/
def isDigit09 (c : Char) : Bool := '0' ≤ c && c ≤ '9'

/-- Embeds `titleJiraRegex` (jira.go:29), the trailing ` (PROJECT-123)`
token of a pull-request title; returns the parenthesised group.  The
pattern is anchored at the end of the title, the digit run abuts `)`, the
letter run abuts `(`, and the `(` must be preceded by a space, so parsing
the title backwards with maximal runs is equivalent to the regex. -/
def extractJiraKey (title : String) : Option String :=
  match title.data.reverse with
  | ')' :: rest =>
    let ds := rest.takeWhile isDigit09
    let rest2 := rest.dropWhile isDigit09
    if ds.isEmpty then none else
    match rest2 with
    | '-' :: rest3 =>
      let as := rest3.takeWhile isUpperAZ
      let rest4 := rest3.dropWhile isUpperAZ
      if as.isEmpty then none else
      match rest4 with
      | '(' :: ' ' :: _ => some (String.mk (as.reverse ++ '-' :: ds.reverse))
      | _ => none
    | _ => none
  | _ => none

/-- Embeds the rule loop of `Jira.Run` (jira.go:315-323): the first rule in
declared order whose condition matches is the one whose actions
(`applyRule`) run, and the loop breaks; `none` if no rule matches. -/
def runRules (event : String) (issue : JiraIssue) (pr : PullRequest) (fixVersion : String) :
    List JiraRule → Option JiraRule
  | [] => none
  | r :: rs =>
    if matchCondition event issue pr fixVersion r.when then some r
    else runRules event issue pr fixVersion rs

/-- Embeds the fix-version computation of `Jira.Run` (jira.go:306-313):
empty when the branch has no release stream, otherwise the prefixed
`NextVersion` result (whose oracle outcome is `nextVer`), with the
`NextVersion` error wrapped. -/
def fixVersionStep (jc : JiraConfig) (bc : BranchConfig) (pr : PullRequest)
    (nextVer : Except String String) : Except String String :=
  if bc.version ≠ "" then
    match nextVer with
    | .error e => .error ("failed to get next version for " ++ pr.baseOwner ++ "/" ++
        pr.baseRepo ++ ":" ++ bc.name ++ ": " ++ e)
    | .ok v => .ok (jc.fixVersionPfx ++ v)
  else .ok ""

/-- The observable outcome of one `Jira.Run` call: which check result or
comment is reported and, when the rule phase is reached, which rule is
applied.  The comment-cleanup side channel (jira.go:115-119, 160-164) is
best-effort and not modelled; check-run creation is modelled as
succeeding. -/
inductive RunOutcome where
  | noJiraKey : RunOutcome
  | titleResult (conclusion title summary : String) : RunOutcome
  | internalError (msg : String) : RunOutcome
  | nextVersionFailed (msg : String) : RunOutcome
  | checked (applied : Option JiraRule) : RunOutcome
deriving DecidableEq

/-- The skip summary built at jira.go:269-273. -/
def skipSummary (cfgKey key : String) : String :=
  (if key ≠ "" then
    "This check is skipped because the Jira issue `" ++ key ++ "` is not from the " ++
      cfgKey ++ " project.\n"
   else
    "This check is skipped because the pull request title does not have a Jira issue in the title.\n")
  ++ "\nThe title should be in the format `Title (" ++ cfgKey ++
     "-123)` and the Jira issue should be from the " ++ cfgKey ++ " project.\n"

/-- Embeds `Jira.Run` (jira.go:251-326).  `fetch` is the oracle outcome of
`jiraClient.Issue.Get` (an error carries the response's status code, or
`none` when there is no response); `nextVer` is the oracle outcome of
`tagInformer.NextVersion`.  The passing title result reported at
jira.go:298 before the rule phase is implied by the `checked` outcome. -/
def runJira (event : String) (jc : JiraConfig) (bc : BranchConfig) (pr : PullRequest)
    (fetch : Except (Option Nat) JiraIssue) (nextVer : Except String String) : RunOutcome :=
  if jc.key = "" then .noJiraKey
  else
    let key := (extractJiraKey pr.title).getD ""
    if !(hasPrefixStr key (jc.key ++ "-")) then
      .titleResult "success" "Pull request does not have a Jira issue in the title"
        (skipSummary jc.key key)
    else
      match fetch with
      | .error none =>
        .internalError "The Jira server is not reachable. You can retry the check by commenting `/recheck` on the pull request."
      | .error (some code) =>
        if code ≠ 404 then
          .internalError ("The Jira request failed with status code " ++ toString code ++
            ". You can retry the check by commenting `/recheck` on the pull request.")
        else
          .titleResult "failure" ("Jira issue " ++ key ++ " does not exist")
            ("The Jira issue `" ++ key ++ "` does not exist.\n")
      | .ok issue =>
        match fixVersionStep jc bc pr nextVer with
        | .error e => .nextVersionFailed e
        | .ok fixVersion => .checked (runRules event issue pr fixVersion jc.rules)

/-- The rule loop returns `some r` exactly when `r` is the first rule in
declared order whose condition matches. -/
theorem runRules_eq_some (event : String) (issue : JiraIssue) (pr : PullRequest)
    (fv : String) :
    ∀ (rules : List JiraRule) (r : JiraRule),
      runRules event issue pr fv rules = some r ↔
        ∃ pre post, rules = pre ++ r :: post ∧
          matchCondition event issue pr fv r.when = true ∧
          ∀ r' ∈ pre, matchCondition event issue pr fv r'.when = false := by
  intro rules
  induction rules with
  | nil =>
    intro r
    constructor
    · intro h
      exact absurd h (by rw [runRules]; simp)
    · rintro ⟨pre, post, h, _, _⟩
      exact absurd h (by simp)
  | cons a rs ih =>
    intro r
    rw [runRules]
    by_cases hm : matchCondition event issue pr fv a.when
    · rw [if_pos hm]
      constructor
      · intro h
        rw [Option.some_inj] at h
        subst h
        exact ⟨[], rs, rfl, hm, by simp⟩
      · rintro ⟨pre, post, heq, hr, hpre⟩
        cases pre with
        | nil =>
          rw [List.nil_append] at heq
          rw [List.cons_eq_cons] at heq
          rw [heq.1]
        | cons p pre' =>
          rw [List.cons_append, List.cons_eq_cons] at heq
          exact absurd hm (by rw [heq.1]; simp [hpre p (List.mem_cons_self p pre')])
    · rw [if_neg hm]
      rw [ih r]
      constructor
      · rintro ⟨pre, post, heq, hr, hpre⟩
        refine ⟨a :: pre, post, by rw [heq, List.cons_append], hr, ?_⟩
        intro r' hr'
        rcases List.mem_cons.1 hr' with h | h
        · subst h
          exact Bool.eq_false_iff.2 hm
        · exact hpre r' h
      · rintro ⟨pre, post, heq, hr, hpre⟩
        cases pre with
        | nil =>
          rw [List.nil_append, List.cons_eq_cons] at heq
          exact absurd (heq.1 ▸ hr) (Bool.eq_false_iff.2 hm ▸ by simp [heq.1, hm])
        | cons p pre' =>
          rw [List.cons_append, List.cons_eq_cons] at heq
          exact ⟨pre', post, heq.2, hr, fun r' h => hpre r' (List.mem_cons.2 (Or.inr h))⟩

/-- The rule loop returns `none` exactly when no rule's condition
matches. -/
theorem runRules_eq_none (event : String) (issue : JiraIssue) (pr : PullRequest)
    (fv : String) :
    ∀ rules : List JiraRule,
      runRules event issue pr fv rules = none ↔
        ∀ r ∈ rules, matchCondition event issue pr fv r.when = false := by
  intro rules
  induction rules with
  | nil =>
    rw [runRules]
    simp
  | cons a rs ih =>
    rw [runRules]
    by_cases hm : matchCondition event issue pr fv a.when
    · rw [if_pos hm]
      simp only [List.mem_cons]
      constructor
      · intro h
        exact absurd h (by simp)
      · intro h
        exact absurd (h a (Or.inl rfl)) (by simp [hm])
    · rw [if_neg hm]
      rw [ih]
      constructor
      · intro h r hr
        rcases List.mem_cons.1 hr with h' | h'
        · subst h'
          exact Bool.eq_false_iff.2 hm
        · exact h r h'
      · intro h r hr
        exact h r (List.mem_cons.2 (Or.inr hr))

/-- C2: when the rule phase is reached (non-empty tracker key, matching
title key, successful fetch, fix-version step successful), `Run` applies
the actions of exactly the first rule in declared order whose condition
matches — later rules are never applied even if they would match — and no
rule's actions when none matches. -/
theorem runJira_first_match (event : String) (jc : JiraConfig) (bc : BranchConfig)
    (pr : PullRequest) (issue : JiraIssue) (nextVer : Except String String) (fv : String)
    (hkey : jc.key ≠ "")
    (hpr : hasPrefixStr ((extractJiraKey pr.title).getD "") (jc.key ++ "-") = true)
    (hfv : fixVersionStep jc bc pr nextVer = .ok fv) :
    runJira event jc bc pr (.ok issue) nextVer =
      .checked (runRules event issue pr fv jc.rules) ∧
    (∀ r, runRules event issue pr fv jc.rules = some r ↔
      ∃ pre post, jc.rules = pre ++ r :: post ∧
        matchCondition event issue pr fv r.when = true ∧
        ∀ r' ∈ pre, matchCondition event issue pr fv r'.when = false) ∧
    (runRules event issue pr fv jc.rules = none ↔
      ∀ r ∈ jc.rules, matchCondition event issue pr fv r.when = false) := by
  refine ⟨?_, fun r => runRules_eq_some event issue pr fv jc.rules r,
    runRules_eq_none event issue pr fv jc.rules⟩
  rw [runJira]
  rw [if_neg hkey]
  rw [if_neg (by rw [hpr]; simp)]
  rw [hfv]

/-- Witness for C2 at a concrete input: two rules whose conditions both
match; only the first is applied. -/
theorem runJira_first_match_witness :
    runJira "opened" ⟨"PROJ", "", [], [⟨"In Progress", false, {}, ""⟩, ⟨"Done", false, {}, ""⟩]⟩
        {} ⟨"Fix (PROJ-123)", "o", "r", "sha", 1, none⟩
        (Except.ok ⟨"PROJ-123", "New", []⟩) (Except.ok "") =
      RunOutcome.checked (runRules "opened" ⟨"PROJ-123", "New", []⟩
        ⟨"Fix (PROJ-123)", "o", "r", "sha", 1, none⟩ ""
        [⟨"In Progress", false, {}, ""⟩, ⟨"Done", false, {}, ""⟩]) ∧
    runRules "opened" ⟨"PROJ-123", "New", []⟩
        ⟨"Fix (PROJ-123)", "o", "r", "sha", 1, none⟩ ""
        [⟨"In Progress", false, {}, ""⟩, ⟨"Done", false, {}, ""⟩] =
      some ⟨"In Progress", false, {}, ""⟩ := by
  refine ⟨?_, by decide⟩
  exact (runJira_first_match "opened"
    ⟨"PROJ", "", [], [⟨"In Progress", false, {}, ""⟩, ⟨"Done", false, {}, ""⟩]⟩
    {} ⟨"Fix (PROJ-123)", "o", "r", "sha", 1, none⟩ ⟨"PROJ-123", "New", []⟩
    (Except.ok "") "" (by decide) (by decide) (by rfl)).1

/-- C5: for a pull request whose title carries a matching tracker key, a
fetch failure with no response reports the internal-error result inviting a
manual retry; a non-404 response reports the internal-error result with the
status code embedded; a 404 reports the blocking failure result stating the
issue does not exist; and in all three cases `Run` stops — the rule phase
is never reached. -/
theorem runJira_fetch_failure (event : String) (jc : JiraConfig) (bc : BranchConfig)
    (pr : PullRequest) (nextVer : Except String String)
    (hkey : jc.key ≠ "")
    (hpr : hasPrefixStr ((extractJiraKey pr.title).getD "") (jc.key ++ "-") = true) :
    (runJira event jc bc pr (.error none) nextVer =
      .internalError "The Jira server is not reachable. You can retry the check by commenting `/recheck` on the pull request.") ∧
    (∀ code : Nat, code ≠ 404 →
      runJira event jc bc pr (.error (some code)) nextVer =
        .internalError ("The Jira request failed with status code " ++ toString code ++
          ". You can retry the check by commenting `/recheck` on the pull request.")) ∧
    (runJira event jc bc pr (.error (some 404)) nextVer =
      .titleResult "failure"
        ("Jira issue " ++ (extractJiraKey pr.title).getD "" ++ " does not exist")
        ("The Jira issue `" ++ (extractJiraKey pr.title).getD "" ++ "` does not exist.\n")) ∧
    (∀ resp applied, runJira event jc bc pr (.error resp) nextVer ≠ .checked applied) := by
  have hstep : ∀ fetch : Except (Option Nat) JiraIssue,
      runJira event jc bc pr fetch nextVer =
        match fetch with
        | .error none =>
          .internalError "The Jira server is not reachable. You can retry the check by commenting `/recheck` on the pull request."
        | .error (some code) =>
          if code ≠ 404 then
            .internalError ("The Jira request failed with status code " ++ toString code ++
              ". You can retry the check by commenting `/recheck` on the pull request.")
          else
            .titleResult "failure"
              ("Jira issue " ++ (extractJiraKey pr.title).getD "" ++ " does not exist")
              ("The Jira issue `" ++ (extractJiraKey pr.title).getD "" ++ "` does not exist.\n")
        | .ok issue =>
          match fixVersionStep jc bc pr nextVer with
          | .error e => .nextVersionFailed e
          | .ok fixVersion => .checked (runRules event issue pr fixVersion jc.rules) := by
    intro fetch
    rw [runJira]
    rw [if_neg hkey]
    rw [if_neg (by rw [hpr]; simp)]
  refine ⟨hstep (.error none), ?_, ?_, ?_⟩
  · intro code hcode
    exact (hstep (.error (some code))).trans (if_pos hcode)
  · exact (hstep (.error (some 404))).trans (if_neg (by simp))
  · intro resp applied
    rw [hstep (.error resp)]
    cases resp with
    | none => simp
    | some code =>
      by_cases hcode : code = 404
      · subst hcode
        simp
      · simp [hcode]

/-- Witness for C5 at a concrete input: the 404 path reports the blocking
failure result. -/
theorem runJira_fetch_failure_witness :
    runJira "opened" ⟨"PROJ", "", [], []⟩ {} ⟨"Fix (PROJ-123)", "o", "r", "sha", 1, none⟩
        (Except.error (some 404)) (Except.ok "") =
      RunOutcome.titleResult "failure"
        ("Jira issue " ++ (extractJiraKey "Fix (PROJ-123)").getD "" ++ " does not exist")
        ("The Jira issue `" ++ (extractJiraKey "Fix (PROJ-123)").getD "" ++
          "` does not exist.\n") :=
  (runJira_fetch_failure "opened" ⟨"PROJ", "", [], []⟩ {}
    ⟨"Fix (PROJ-123)", "o", "r", "sha", 1, none⟩ (Except.ok "")
    (by decide) (by decide)).2.2.1

/-! ## Recheck comments: `main.go` -/

/-- RE2's `\s` class: `[\t\n\f\r ]`. -/
def isGoSpace (c : Char) : Bool :=
  c = '\t' || c = '\n' || c = '\x0c' || c = '\r' || c = ' '

/-- ASCII lower-casing of `A`–`Z` (for the `(?i)` flag; the pattern's
letters are ASCII, so only `A`–`Z` matter). -/
def lowerAZ (c : Char) : Char :=
  if 'A' ≤ c && c ≤ 'Z' then Char.ofNat (c.toNat + 32) else c

/-- Splits a character list at `'\n'` (the lines of the body; embeds the
line structure that `(?m)` anchors address). -/
def splitLines : List Char → List (List Char)
  | [] => [[]]
  | c :: cs =>
    if c = '\n' then [] :: splitLines cs
    else
      match splitLines cs with
      | [] => [[c]]
      | l :: ls => (c :: l) :: ls

/-- One line (no `\n` inside) matches `^/recheck\s*$` case-insensitively:
it starts with `/recheck` and the rest is whitespace. -/
def lineIsRecheck (line : List Char) : Bool :=
  decide ((line.map lowerAZ).take 8 = "/recheck".data) &&
    ((line.map lowerAZ).drop 8).all isGoSpace

/-- Embeds `recheckRegex = (?mi)^/recheck\s*$` (main.go:35).  With `(?m)`,
`^` matches at the start of the text and after each `\n`, and `$` at the
end and before each `\n`; `\s*` may consume newlines, but every successful
match places `$` at the end of some line, and the characters of the match
line after `/recheck` are all `\s` and not `\n` — so the regex matches the
body iff some `\n`-separated line consists of `/recheck` (ASCII
case-insensitive) followed only by whitespace.  Note `^` allows no padding
before `/recheck` on the same line. -/
def recheckMatch (body : String) : Bool :=
  (splitLines body.data).any (fun line => lineIsRecheck line)

/-- Embeds `reactor.HandleIssueCommentCreate` (main.go:238-260) as the
decision whether the recheck path runs (re-fetch the pull request via
`PullRequests.Get` and run the Jira check with `EventRecheck`,
main.go:247-256): only for an open issue that is a pull request and a
comment body matching the recheck regex. -/
def handleIssueCommentCreate (issueState : String) (issueIsPR : Bool)
    (commentBody : String) : Bool :=
  if issueState ≠ "open" then false
  else if !issueIsPR then false
  else recheckMatch commentBody

/-- C7 counterexample: the comment body `" /recheck"` — exactly `/recheck`
padded with one leading space — does NOT trigger the recheck path on an
open pull request, although the claim says `/recheck` optionally padded
with surrounding whitespace does. -/
theorem recheck_leading_space_not_triggered :
    handleIssueCommentCreate "open" true " /recheck" = false := by
  decide

/-- A line matches the recheck pattern iff its lower-cased characters are
`/recheck` followed only by whitespace. -/
theorem lineIsRecheck_iff (line : List Char) :
    lineIsRecheck line = true ↔
      ∃ ws : List Char, line.map lowerAZ = "/recheck".data ++ ws ∧
        ∀ c ∈ ws, isGoSpace c = true := by
  rw [lineIsRecheck, Bool.and_eq_true, decide_eq_true_iff, List.all_eq_true]
  constructor
  · rintro ⟨htake, hdrop⟩
    refine ⟨(line.map lowerAZ).drop 8, ?_, hdrop⟩
    rw [← htake]
    exact (List.take_append_drop 8 (line.map lowerAZ)).symm
  · rintro ⟨ws, hws, hall⟩
    rw [hws]
    constructor
    · rw [show (8 : Nat) = ("/recheck".data).length from by decide]
      exact List.take_left "/recheck".data ws
    · rw [show (8 : Nat) = ("/recheck".data).length from by decide]
      rw [List.drop_left "/recheck".data ws]
      exact hall

/-- C7 (amended): on an open pull-request issue, the recheck path runs iff
some `\n`-separated line of the comment body is exactly `/recheck` (ASCII
case-insensitive) followed only by trailing whitespace.  Whitespace may
precede the command only as earlier lines: the command must start at the
start of its line, so `" /recheck"` (leading space on the same line) does
not trigger, and `recheck` without the slash does not trigger. -/
theorem recheck_trigger_characterisation :
    (∀ (issueState : String) (issueIsPR : Bool) (body : String),
      handleIssueCommentCreate issueState issueIsPR body = true ↔
        (issueState = "open" ∧ issueIsPR = true ∧
         ∃ line ∈ splitLines body.data, ∃ ws : List Char,
           line.map lowerAZ = "/recheck".data ++ ws ∧
           ∀ c ∈ ws, isGoSpace c = true)) ∧
    handleIssueCommentCreate "open" true "/recheck" = true ∧
    handleIssueCommentCreate "open" true "/recheck  " = true ∧
    handleIssueCommentCreate "open" true "/RECHECK" = true ∧
    handleIssueCommentCreate "open" true "\n/recheck\n" = true ∧
    handleIssueCommentCreate "open" true "recheck" = false ∧
    handleIssueCommentCreate "open" true " /recheck" = false := by
  refine ⟨?_, by decide, by decide, by decide, by decide, by decide, by decide⟩
  intro issueState issueIsPR body
  rw [handleIssueCommentCreate]
  by_cases hst : issueState = "open"
  · rw [if_neg (by simp [hst])]
    cases issueIsPR with
    | false => simp
    | true =>
      rw [if_neg (by simp)]
      rw [recheckMatch, List.any_eq_true]
      constructor
      · rintro ⟨line, hmem, hline⟩
        exact ⟨hst, rfl, line, hmem, (lineIsRecheck_iff line).1 hline⟩
      · rintro ⟨_, _, line, hmem, hws⟩
        exact ⟨line, hmem, (lineIsRecheck_iff line).2 hws⟩
  · rw [if_pos (by simp [hst])]
    simp [hst]

end QuayCI
